import Mathlib

/-!
Shallow embedding of the DemARK notebooks (Alternative-Combos-Of-Parameter-Values,
DiamondOLG, LC-Model-Expected-Vs-Realized-Income-Growth, PerfForesightCRRA-SavingRate).

The notebooks are linear scripts that build parameter dictionaries, call an external
economic-modeling toolkit (HARK / scipy), and aggregate the results.  The external
toolkit is out of scope: its pure helper functions (get_lorenz_shares, get_percentiles)
are abstracted as function parameters, and its solver outputs are abstracted as
universally quantified data.  Everything written by the notebooks themselves
(arithmetic, list pooling, loop structure, dictionary manipulation) is embedded
faithfully below, with numeric literals read as exact rationals or reals.
-/

/-- An agent instance as the notebooks see it after solving and simulating:
a bag of named result arrays.  Only the attributes the embedded code reads are kept:
`aLvl` (current individual asset levels) and `MPCnow` (quarterly marginal propensities
to consume). -/
structure AgentType where
  aLvl : List ℚ
  MPCnow : List ℚ
  deriving DecidableEq

/-- `lorenz_SCF` from `calcLorenzDistance` in Alternative-Combos-Of-Parameter-Values:
the fixed SCF data vector of Lorenz shares at the 20th/40th/60th/80th percentiles. -/
def lorenz_SCF : List ℚ := [-0.00183091, 0.0104425, 0.0552605, 0.1751907]

/-- `np.concatenate([ThisType.aLvl for ThisType in ts])`: pooled asset holdings. -/
def pooled_aLvl (ts : List AgentType) : List ℚ := (ts.map AgentType.aLvl).flatten

/-- `np.concatenate([ThisType.MPCnow for ThisType in ts])`: pooled quarterly MPCs. -/
def pooled_MPC (ts : List AgentType) : List ℚ := (ts.map AgentType.MPCnow).flatten

/-- `np.sum((u - v)**2)` for two equal-length vectors (elementwise difference,
square, sum). -/
def sumSqDiff (u v : List ℚ) : ℚ := (List.zipWith (fun a b => (a - b) ^ 2) u v).sum

/-- Embedding of `calcLorenzDistance` from Alternative-Combos-Of-Parameter-Values
(code cell 10).  `gls` abstracts the external pure helper
`get_lorenz_shares(data, percentiles=...)`; `MyTypes` is the notebook global of the
same name, which the function body closes over.  NOTE: exactly as in the source, the
body pools `aLvl` over the global `MyTypes`, not over the `SomeTypes` parameter:
`aLvl_sim = np.concatenate([ThisType.aLvl for ThisType in MyTypes])`. -/
noncomputable def calcLorenzDistance (gls : List ℚ → List ℚ → List ℚ)
    (MyTypes SomeTypes : List AgentType) : ℝ :=
  Real.sqrt ((sumSqDiff lorenz_SCF (gls (pooled_aLvl MyTypes) [0.2, 0.4, 0.6, 0.8]) : ℚ) : ℝ)

/-- What the claim (and the function's own docstring) say `calcLorenzDistance` does:
the Euclidean distance between the SCF vector and the Lorenz shares of the pooled
asset holdings of the agents in `SomeTypes`, the function's argument. -/
noncomputable def calcLorenzDistance_asDocumented (gls : List ℚ → List ℚ → List ℚ)
    (SomeTypes : List AgentType) : ℝ :=
  Real.sqrt ((sumSqDiff lorenz_SCF (gls (pooled_aLvl SomeTypes) [0.2, 0.4, 0.6, 0.8]) : ℚ) : ℝ)

/-- A concrete Lorenz-shares helper (a pure function on numeric arrays, which is all
the spec assumes of the external helpers): it reports the pooled total in every slot,
so it distinguishes two pools with different totals. -/
def demo_gls : List ℚ → List ℚ → List ℚ :=
  fun data _ps => [data.sum, data.sum, data.sum, data.sum]

/-- Concrete notebook global `MyTypes`: one agent whose simulated assets are `[0]`. -/
def demo_MyTypes : List AgentType := [⟨[0], []⟩]

/-- Concrete argument `SomeTypes`: one agent whose simulated assets are `[1]`. -/
def demo_SomeTypes : List AgentType := [⟨[1], []⟩]

/-- Embedding of `describeMPCdstn` from Alternative-Combos-Of-Parameter-Values
(code cell 12).  `gp` abstracts the external pure helper
`get_percentiles(data, percentiles=...)`.  The Python function prints one line per
loop iteration and has no return statement (it returns `None`); the print trace is
modelled as the list of pairs (the two interpolated numbers of each printed line:
`100*percentiles[j]` and `MPCpercentiles_annual[j]`).  Indexing
`MPCpercentiles_annual[j]` raises `IndexError` when `j` is out of range, so the
embedding is `Option`-valued. -/
def describeMPCdstn (gp : List ℚ → List ℚ → List ℚ) (SomeTypes : List AgentType)
    (percentiles : List ℚ) : Option (List (ℚ × ℚ)) :=
  let MPC_sim := pooled_MPC SomeTypes
  let MPCpercentiles_quarterly := gp MPC_sim percentiles
  let MPCpercentiles_annual := MPCpercentiles_quarterly.map (fun q => 1 - (1 - q) ^ 4)
  if percentiles.length ≤ MPCpercentiles_annual.length then
    some ((List.range percentiles.length).map
      (fun j => (100 * percentiles.getD j 0, MPCpercentiles_annual.getD j 0)))
  else none

/-! ### Invocation sequencing (Alternative-Combos cell 5, LC-Model cells 4/6/13) -/

/-- The three external calls a notebook makes on an agent instance. -/
inductive SimCall where
  | solve
  | initSim
  | simulate
  deriving DecidableEq

/-- The call trace of the progress-bar loop in Alternative-Combos-Of-Parameter-Values,
code cell 5, with `MyTypes` of length `n` (agents identified by list position):

for ThisType in tqdm(MyTypes): ThisType.solve(); ThisType.initialize_sim();
ThisType.simulate()

`tqdm` wraps the iterator without reordering it, so the loop visits the list in
order. -/
def agentLoopTrace (n : ℕ) : List (ℕ × SimCall) :=
  (List.range n).flatMap (fun i => [(i, .solve), (i, .initSim), (i, .simulate)])

/-- The call trace of LC-Model-Expected-Vs-Realized-Income-Growth: cell 4 solves
`Agent` (id 0), cell 6 runs its simulation, cell 13 solves and simulates `Agent_nt`
(id 1). -/
def lcTrace : List (ℕ × SimCall) :=
  [(0, .solve), (0, .initSim), (0, .simulate), (1, .solve), (1, .initSim), (1, .simulate)]

/-- The calls made on agent `a`, in trace order. -/
def callsOf (a : ℕ) (tr : List (ℕ × SimCall)) : List SimCall :=
  (tr.filter (fun e => e.1 = a)).map Prod.snd

/-- Straight-line execution of a sequence of external calls, as the notebook cells
run them: there is no `try`/`except` anywhere in the notebooks, so the first call
that raises aborts the cell.  `beh` is the (arbitrary) behaviour of the external
toolkit on each call.  The result is the list of calls that completed, paired with
the uncaught exception, if any. -/
def runCalls (beh : ℕ × SimCall → Except String Unit) :
    List (ℕ × SimCall) → List (ℕ × SimCall) × Option String
  | [] => ([], none)
  | e :: rest =>
    match beh e with
    | .error msg => ([], some msg)
    | .ok _ =>
      let r := runCalls beh rest
      (e :: r.1, r.2)

/-! ### Parameter dictionaries (LC-Model cell 13) -/

/-- A Python value as stored in the notebooks' parameter dictionaries. -/
inductive PyVal where
  | num (q : ℚ)
  | arr (xs : List ℚ)
  | str (s : String)
  | boolean (b : Bool)
  deriving DecidableEq

/-- A Python dict, as a key-to-value map. -/
def PyDict : Type := String → Option PyVal

/-- `d[k] = v` / `d.update({k: v})` on a single key: rebind `k`, keep the rest. -/
def dictUpdate (d : PyDict) (k : String) (v : PyVal) : PyDict :=
  fun k' => if k' = k then some v else d k'

/-- A heap of dictionaries: Python variables hold references (addresses), and
`copy` allocates a fresh dictionary, so mutating the copy cannot touch the
original. -/
structure PyState where
  heap : ℕ → Option PyDict
  nextAddr : ℕ

/-- Embedding of LC-Model-Expected-Vs-Realized-Income-Growth, code cell 13:

params_no_transitory = copy(params)
params_no_transitory.update({"TranShkStd": [0.0] * len(params["TranShkStd"])})

`paramsAddr` is the address the variable `params` holds.  `copy` allocates a fresh
dict equal to `params`; `update` then rebinds `"TranShkStd"` in the fresh dict to a
list of zeros of the same length.  Looking up a missing key or taking `len` of a
non-list raises, hence the `Option`.  Returns the new state and the address bound to
`params_no_transitory`.  (The subsequent `IndShockConsumerType(**params_no_transitory)`
call unpacks the dict read-only; the spec treats construction as non-mutating.) -/
def cell13_no_transitory (σ : PyState) (paramsAddr : ℕ) : Option (PyState × ℕ) :=
  match σ.heap paramsAddr with
  | none => none
  | some d =>
    match d "TranShkStd" with
    | some (.arr xs) =>
      let na := σ.nextAddr
      let d2 := dictUpdate d "TranShkStd" (.arr (List.replicate xs.length 0))
      some (⟨fun a => if a = na then some d2 else σ.heap a, na + 1⟩, na)
    | _ => none

/-! ### Uses of solved policy objects (C6) -/

/-- A numeric expression appearing as an argument in the notebooks. -/
inductive PyExpr where
  | scalarLit (q : ℚ)
  | varRef (name : String)
  deriving DecidableEq

/-- The ways a notebook statement could touch an agent's `solution` attribute after
`solve()` returns. -/
inductive SolutionUse where
  /-- `agent.solution[period].cFunc(arg)`: read-only evaluation of the policy. -/
  | evalCFunc (period : ℕ) (arg : PyExpr)
  /-- `agent.solution = expr`: reassignment of the solution object. -/
  | reassign (newVal : PyExpr)
  /-- `agent.solution[period] = expr`: replacement of a period's policy. -/
  | setItem (period : ℕ) (newVal : PyExpr)
  /-- `agent.solution[period].field = expr`: mutation of a policy field. -/
  | setField (period : ℕ) (field : String) (newVal : PyExpr)
  deriving DecidableEq

/-- Every occurrence of an agent's `.solution` in DiamondOLG:
`c = PFagent.solution[0].cFunc(wage)` (plot1) and
`c = PFagent.solution[0].cFunc(net_wage)` (plot3).  (The local variable `solution`
holding scipy's root result in plot3 is an unrelated binding, not an agent
attribute.) -/
def diamond_solution_uses : List SolutionUse :=
  [.evalCFunc 0 (.varRef "wage"), .evalCFunc 0 (.varRef "net_wage")]

/-- Every occurrence of an agent's `.solution` in PerfForesightCRRA-SavingRate:
`test_c = PFsavrate.solution[0].cFunc(test_m)` (cell 6, `test_m = 4`) and
`c_t = PFsavrate.solution[0].cFunc(m_t)` (cell 8, `m_t` an array). -/
def pf_savrate_solution_uses : List SolutionUse :=
  [.evalCFunc 0 (.varRef "test_m"), .evalCFunc 0 (.varRef "m_t")]

/-- Alternative-Combos-Of-Parameter-Values never touches `.solution` directly. -/
def altcombos_solution_uses : List SolutionUse := []

/-- LC-Model-Expected-Vs-Realized-Income-Growth never touches `.solution` directly. -/
def lc_solution_uses : List SolutionUse := []

/-- A use is read-only iff it only evaluates `solution[i].cFunc` on a numeric
argument. -/
def SolutionUse.readOnlyEval : SolutionUse → Bool
  | .evalCFunc _ _ => true
  | _ => false

/-! ### DiamondOLG plot1 (C8) -/

/-- `Beta = DiscFac**YearsPerGeneration` (plot1). -/
noncomputable def plot1_Beta (DiscFac YearsPerGeneration : ℝ) : ℝ :=
  DiscFac ^ YearsPerGeneration

/-- `xi = PopGrowth**YearsPerGeneration` (plot1). -/
noncomputable def plot1_xi (PopGrowth YearsPerGeneration : ℝ) : ℝ :=
  PopGrowth ^ YearsPerGeneration

/-- `Q = (1-Epsilon)*(Beta/(1+Beta))/xi` (plot1). -/
noncomputable def plot1_Q (Epsilon Beta xi : ℝ) : ℝ :=
  (1 - Epsilon) * (Beta / (1 + Beta)) / xi

/-- `kBar = Q**(1/(1-Epsilon))` (plot1): the plotted steady-state point. -/
noncomputable def plot1_kBar (Epsilon Q : ℝ) : ℝ := Q ^ (1 / (1 - Epsilon))

/-- `ktp1 = Q*kt_range**Epsilon` (plot1): the plotted capital-accumulation curve,
evaluated at one point `k`. -/
noncomputable def plot1_ktp1 (Epsilon Q k : ℝ) : ℝ := Q * k ^ Epsilon

/-! ### DiamondOLG plot3 (C9) -/

/-- `Beta = DiscFac**YearsPerGeneration` (plot3). -/
noncomputable def plot3_Beta (DiscFac YearsPerGeneration : ℝ) : ℝ :=
  DiscFac ^ YearsPerGeneration

/-- `xi = PopGrowth**YearsPerGeneration` with `PopGrowth = 1` fixed inside plot3. -/
noncomputable def plot3_xi (YearsPerGeneration : ℝ) : ℝ := (1 : ℝ) ^ YearsPerGeneration

/-- `Q = (1-Epsilon)*(Beta/(1+Beta))/xi` (plot3, before the PAYG system). -/
noncomputable def plot3_Q (Epsilon Beta xi : ℝ) : ℝ :=
  (1 - Epsilon) * (Beta / (1 + Beta)) / xi

/-- `transfers = z * (1 + (Rfree * Beta))/(Rfree * (1 + Beta))` (plot3). -/
noncomputable def plot3_transfers (z Rfree Beta : ℝ) : ℝ :=
  z * (1 + Rfree * Beta) / (Rfree * (1 + Beta))

/-- `kBar_old = Q**(1/(1-Epsilon))` (plot3): the loop's starting point
`kt_PAYG = kBar_old`. -/
noncomputable def plot3_kBar_old (Epsilon Beta xi : ℝ) : ℝ :=
  plot3_Q Epsilon Beta xi ^ (1 / (1 - Epsilon))

/-- `wage = (1-Epsilon)*kt_PAYG**Epsilon` (plot3 loop body). -/
noncomputable def plot3_wage (Epsilon k : ℝ) : ℝ := (1 - Epsilon) * k ^ Epsilon

/-- `k1 = (wage * (Beta/(1 + Beta)) - transfers)/(xi)` (plot3 loop body): one step of
the convergence-arrow iteration `kt_PAYG = k1`. -/
noncomputable def plot3_k1 (Epsilon Beta xi transfers k : ℝ) : ℝ :=
  (plot3_wage Epsilon k * (Beta / (1 + Beta)) - transfers) / xi

/-- The value of `kt_PAYG` after `n` iterations of the plot3 while-loop body,
starting from `kBar_old`. -/
noncomputable def plot3_path (Epsilon Beta xi transfers : ℝ) (n : ℕ) : ℝ :=
  (fun k => plot3_k1 Epsilon Beta xi transfers k)^[n]
    (plot3_kBar_old Epsilon Beta xi)

/-- A concrete steady state for exercising the plot3 loop: the widget combination
`Epsilon = 1/3`, `DiscFac = 19/20`, `z = 0`, `Rfree = 1` (with `z = 0` the PAYG
steady state coincides with `kBar_old`). -/
noncomputable def demo_plot3_K : ℝ :=
  plot3_kBar_old (1/3) (plot3_Beta (19/20) 30) (plot3_xi 30)

/-! ### PerfForesightCRRA-SavingRate, saving-rate cell (C10) -/

/-- `np.linspace(start, stop, num)`: `num` evenly spaced points from `start` to
`stop` inclusive (numpy default endpoint behaviour). -/
def np_linspace (start stop : ℚ) (num : ℕ) : List ℚ :=
  (List.range num).map (fun i : ℕ => start + (stop - start) * i / (num - 1))

/-- `Rfree = 1.03` (PerfForesightCRRA-SavingRate, code cell 4). -/
def Rfree_sr : ℚ := 1.03

/-- `Γ = PermGroFac = [1.01]` (code cell 4); the length-one list broadcasts in the
numpy expressions below, so it is embedded as the scalar it broadcasts to. -/
def PermGroFac_sr : ℚ := 1.01

/-- `a_tm1 = np.linspace(-1,4)` (code cell 8; numpy default `num=50`). -/
def a_tm1 : List ℚ := np_linspace (-1) 4 50

/-- `cap_income_t = a_tm1*(Rfree-1)/Γ` at one grid point. -/
def cap_income_t (a : ℚ) : ℚ := a * (Rfree_sr - 1) / PermGroFac_sr

/-- `lab_income_t = 1`. -/
def lab_income_t : ℚ := 1

/-- A concrete external-toolkit behaviour for exercising `runCalls`: the first
`simulate` call raises (as HARK does when a calibration violates an impatience
condition), every other call succeeds. -/
def demo_beh : ℕ × SimCall → Except String Unit :=
  fun e => if e = (0, SimCall.simulate) then .error "DegenerateGICError" else .ok ()

/-- A concrete parameter dictionary with a `TranShkStd` list and one other key. -/
def demo_params : PyDict := fun k =>
  if k = "TranShkStd" then some (.arr [0.1, 0.2])
  else if k = "DiscFac" then some (.num 0.97)
  else none

/-- A concrete one-dictionary heap: address 0 holds `demo_params`. -/
def demo_state : PyState :=
  ⟨fun a => if a = 0 then some demo_params else none, 1⟩

/-! ## Helper lemmas -/

theorem agentLoopTrace_succ (n : ℕ) :
    agentLoopTrace (n + 1) =
      agentLoopTrace n ++ [(n, SimCall.solve), (n, SimCall.initSim), (n, SimCall.simulate)] := by
  simp [agentLoopTrace, List.range_succ]

theorem callsOf_append (a : ℕ) (t u : List (ℕ × SimCall)) :
    callsOf a (t ++ u) = callsOf a t ++ callsOf a u := by
  simp [callsOf]

theorem callsOf_block (a i : ℕ) :
    callsOf a [(i, SimCall.solve), (i, SimCall.initSim), (i, SimCall.simulate)] =
      if i = a then [SimCall.solve, SimCall.initSim, SimCall.simulate] else [] := by
  by_cases h : i = a <;> simp [callsOf, h]

theorem mem_agentLoopTrace {n : ℕ} {e : ℕ × SimCall} (h : e ∈ agentLoopTrace n) :
    e.1 < n := by
  simp only [agentLoopTrace, List.mem_flatMap, List.mem_range] at h
  obtain ⟨i, hi, he⟩ := h
  simp only [List.mem_cons, List.mem_singleton, List.not_mem_nil, or_false] at he
  rcases he with rfl | rfl | rfl <;> exact hi

theorem range_map_getD_eq_zipWith {α β γ : Type} (f : α → β → γ) (d : α) (d' : β) :
    ∀ (u : List α) (v : List β), u.length ≤ v.length →
      (List.range u.length).map (fun j => f (u.getD j d) (v.getD j d')) =
        List.zipWith f u v := by
  intro u
  induction u with
  | nil => intro v _; simp
  | cons a u ih =>
    intro v hv
    match v with
    | [] => simp at hv
    | b :: v =>
      simp only [List.length_cons, List.range_succ_eq_map, List.map_cons, List.map_map]
      simp only [List.getD_cons_zero, List.zipWith_cons_cons]
      refine congrArg (f a b :: ·) ?_
      rw [show ((fun j => f ((a :: u).getD j d) ((b :: v).getD j d')) ∘ Nat.succ)
            = (fun j => f (u.getD j d) (v.getD j d')) from
          funext fun j => by simp [Function.comp, List.getD_cons_succ]]
      exact ih v (by simpa using hv)

theorem rpow_one_div_one_sub_fix {Q ε : ℝ} (hQ : 0 < Q) (hε1 : ε < 1) :
    Q * (Q ^ (1 / (1 - ε))) ^ ε = Q ^ (1 / (1 - ε)) := by
  have h1 : (1 : ℝ) - ε ≠ 0 := ne_of_gt (by linarith)
  rw [← Real.rpow_mul hQ.le]
  nth_rewrite 1 [show Q = Q ^ (1 : ℝ) from (Real.rpow_one Q).symm]
  rw [← Real.rpow_add hQ]
  congr 1
  field_simp

theorem rpow_one_div_one_sub_fix_unique {Q ε k : ℝ} (hε1 : ε < 1) (hk : 0 < k)
    (hfix : Q * k ^ ε = k) : k = Q ^ (1 / (1 - ε)) := by
  have h1 : (1 : ℝ) - ε ≠ 0 := ne_of_gt (by linarith)
  have hkε : 0 < k ^ ε := Real.rpow_pos_of_pos hk ε
  have hQeq : Q = k ^ ((1 : ℝ) - ε) := by
    rw [Real.rpow_sub hk, Real.rpow_one]
    rw [eq_div_iff (ne_of_gt hkε)]
    exact hfix
  rw [hQeq, ← Real.rpow_mul hk.le]
  rw [show ((1 : ℝ) - ε) * (1 / (1 - ε)) = 1 by field_simp]
  rw [Real.rpow_one]

theorem agentLoopTrace_pairwise_le (n : ℕ) :
    (agentLoopTrace n).Pairwise (fun e f => e.1 ≤ f.1) := by
  induction n with
  | zero => simp [agentLoopTrace]
  | succ m ih =>
    rw [agentLoopTrace_succ]
    refine List.pairwise_append.mpr ⟨ih, by simp, ?_⟩
    intro a ha b hb
    have h1 := mem_agentLoopTrace ha
    have h2 : b.1 = m := by
      simp only [List.mem_cons, List.mem_singleton, List.not_mem_nil, or_false] at hb
      rcases hb with rfl | rfl | rfl <;> rfl
    omega

theorem agentLoopTrace_count_eq_one {n i : ℕ} (c : SimCall) (h : i < n) :
    (agentLoopTrace n).count (i, c) = 1 := by
  induction n with
  | zero => omega
  | succ m ih =>
    rw [agentLoopTrace_succ, List.count_append]
    rcases Nat.lt_or_ge i m with h2 | h2
    · rw [ih h2]
      have hz :
          List.count (i, c)
            [(m, SimCall.solve), (m, SimCall.initSim), (m, SimCall.simulate)] = 0 := by
        refine List.count_eq_zero.mpr ?_
        simp only [List.mem_cons, List.mem_singleton, List.not_mem_nil, or_false,
          Prod.mk.injEq, not_or]
        refine ⟨fun hh => ?_, fun hh => ?_, fun hh => ?_⟩ <;> omega
      omega
    · have him : i = m := by omega
      subst him
      have h0 : List.count (i, c) (agentLoopTrace i) = 0 := by
        refine List.count_eq_zero.mpr fun hmem => ?_
        exact absurd (mem_agentLoopTrace hmem) (lt_irrefl i)
      rw [h0]
      cases c <;> simp [List.count_cons]

/-! ## Claim theorems -/

/-- C3: In every notebook that simulates (Alternative-Combos' loop over `MyTypes`,
LC-Model's two agents), the calls made on any one agent are exactly
`solve`, then `initialize_sim`, then `simulate`, in that order; in particular
`simulate` is never invoked on an agent before `solve` has completed on it. -/
theorem notebooks_call_solve_init_simulate_in_order (n a : ℕ) :
    callsOf a (agentLoopTrace n) =
      (if a < n then [SimCall.solve, SimCall.initSim, SimCall.simulate] else []) ∧
    callsOf a lcTrace =
      (if a < 2 then [SimCall.solve, SimCall.initSim, SimCall.simulate] else []) := by
  constructor
  · induction n with
    | zero => simp [agentLoopTrace, callsOf]
    | succ m ih =>
      rw [agentLoopTrace_succ, callsOf_append, ih, callsOf_block]
      rcases Nat.lt_trichotomy a m with h | h | h
      · rw [if_pos h, if_neg (by omega), if_pos (by omega)]
        simp
      · subst h
        rw [if_neg (lt_irrefl a), if_pos rfl, if_pos (Nat.lt_succ_self a)]
        simp
      · rw [if_neg (by omega), if_neg (by omega), if_neg (by omega)]
        simp
  · rcases Nat.lt_or_ge a 2 with h | h
    · interval_cases a <;> rfl
    · obtain ⟨k, rfl⟩ : ∃ k, a = k + 2 := ⟨a - 2, by omega⟩
      rfl

/-- C7: The progress-bar loop of Alternative-Combos-Of-Parameter-Values processes
`MyTypes` strictly sequentially in list order: agent indices along the trace are
nondecreasing (so all calls on agent `i` complete before any call on agent `j > i`
begins), and each agent receives each of the three calls exactly once. -/
theorem tqdm_loop_sequential (n : ℕ) :
    (agentLoopTrace n).Pairwise (fun e f => e.1 ≤ f.1) ∧
    ∀ i c, i < n → (agentLoopTrace n).count (i, c) = 1 :=
  ⟨agentLoopTrace_pairwise_le n, fun _ c h => agentLoopTrace_count_eq_one c h⟩

/-- Witness for C7 at the concrete loop over two agents. -/
theorem tqdm_loop_sequential_witness :
    (agentLoopTrace 2).Pairwise (fun e f => e.1 ≤ f.1) ∧
    (1 : ℕ) < 2 ∧ (agentLoopTrace 2).count (1, SimCall.simulate) = 1 :=
  ⟨(tqdm_loop_sequential 2).1, by decide, (tqdm_loop_sequential 2).2 1 SimCall.simulate (by decide)⟩

/-- C4: No notebook wraps the external `solve`/`initialize_sim`/`simulate` calls in
`try`/`except`: when a call raises, running the cell's call sequence yields exactly
the calls before the raising one as completed, and the raw exception propagates
uncaught as the cell's outcome — no subsequent call of that cell executes. -/
theorem notebook_exceptions_uncaught (beh : ℕ × SimCall → Except String Unit)
    (pre : List (ℕ × SimCall)) (e : ℕ × SimCall) (rest : List (ℕ × SimCall)) (msg : String)
    (hok : ∀ x ∈ pre, beh x = .ok ()) (hraise : beh e = .error msg) :
    runCalls beh (pre ++ e :: rest) = (pre, some msg) := by
  induction pre with
  | nil => simp [runCalls, hraise]
  | cons x xs ih =>
    have hx : beh x = .ok () := hok x (by simp)
    have ihh := ih fun y hy => hok y (by simp [hy])
    simp [runCalls, hx, ihh]

/-- Witness for C4: in the Alternative-Combos loop over one agent, a `simulate`
that raises aborts the cell after `solve` and `initialize_sim`, and the exception
surfaces uncaught. -/
theorem notebook_exceptions_uncaught_witness :
    (∀ x ∈ [((0 : ℕ), SimCall.solve), (0, SimCall.initSim)], demo_beh x = .ok ()) ∧
    demo_beh (0, SimCall.simulate) = .error "DegenerateGICError" ∧
    runCalls demo_beh (agentLoopTrace 1) =
      ([(0, SimCall.solve), (0, SimCall.initSim)], some "DegenerateGICError") := by
  refine ⟨by intro x hx; fin_cases hx <;> rfl, rfl, ?_⟩
  have h : agentLoopTrace 1 =
      [(0, SimCall.solve), (0, SimCall.initSim)] ++ (0, SimCall.simulate) :: [] := by decide
  rw [h]
  exact notebook_exceptions_uncaught demo_beh _ _ _ _ (by intro x hx; fin_cases hx <;> rfl) rfl

/-- C5: LC-Model cell 13 builds `params_no_transitory` from a fresh copy of
`params`, updated only at `"TranShkStd"`: afterwards the original `params`
dictionary is unchanged at its address, and the new dictionary agrees with `params`
at every key other than `"TranShkStd"`, where it holds a list of zeros of the same
length as `params["TranShkStd"]`. -/
theorem params_no_transitory_frame (σ : PyState) (paramsAddr : ℕ) (d : PyDict)
    (xs : List ℚ)
    (hpa : σ.heap paramsAddr = some d)
    (hT : d "TranShkStd" = some (.arr xs))
    (hlt : paramsAddr < σ.nextAddr) :
    ∃ σ2 na, cell13_no_transitory σ paramsAddr = some (σ2, na) ∧
      σ2.heap paramsAddr = some d ∧
      ∃ d2, σ2.heap na = some d2 ∧
        d2 "TranShkStd" = some (.arr (List.replicate xs.length 0)) ∧
        ∀ k, k ≠ "TranShkStd" → d2 k = d k := by
  refine ⟨⟨fun a => if a = σ.nextAddr then
      some (dictUpdate d "TranShkStd" (.arr (List.replicate xs.length 0)))
    else σ.heap a, σ.nextAddr + 1⟩, σ.nextAddr, ?_, ?_, ?_⟩
  · simp [cell13_no_transitory, hpa, hT]
  · show (if paramsAddr = σ.nextAddr then _ else σ.heap paramsAddr) = some d
    rw [if_neg (by omega)]
    exact hpa
  · refine ⟨dictUpdate d "TranShkStd" (.arr (List.replicate xs.length 0)), by simp,
      by simp [dictUpdate], fun k hk => ?_⟩
    simp [dictUpdate, hk]

/-- Witness for C5 on a concrete two-key parameter dictionary. -/
theorem params_no_transitory_frame_witness :
    demo_state.heap 0 = some demo_params ∧
    demo_params "TranShkStd" = some (.arr [0.1, 0.2]) ∧
    0 < demo_state.nextAddr ∧
    (∃ σ2 na, cell13_no_transitory demo_state 0 = some (σ2, na) ∧
      σ2.heap 0 = some demo_params ∧
      ∃ d2, σ2.heap na = some d2 ∧
        d2 "TranShkStd" = some (.arr (List.replicate ([(0.1 : ℚ), 0.2]).length 0)) ∧
        ∀ k, k ≠ "TranShkStd" → d2 k = demo_params k) :=
  ⟨rfl, rfl, Nat.zero_lt_one,
    params_no_transitory_frame demo_state 0 demo_params [0.1, 0.2] rfl rfl Nat.zero_lt_one⟩

/-- C6: every occurrence of an agent's `.solution` in the four notebooks, once
`solve()` has returned, is a read-only evaluation `solution[0].cFunc(...)` on a
numeric argument; no notebook statement reassigns or mutates the solution object or
its fields. -/
theorem solution_object_used_read_only :
    ((diamond_solution_uses ++ pf_savrate_solution_uses ++
      altcombos_solution_uses ++ lc_solution_uses).all SolutionUse.readOnlyEval) = true := rfl

/-- C2: for a non-empty list of simulated consumer types and any percentile
vector, `describeMPCdstn` prints exactly one line per requested percentile, in input
order (and returns no value), and the annual figure printed for the `j`-th
percentile is `1 - (1 - q)^4` where `q` is that percentile of the pooled quarterly
`MPCnow` values, as delivered by the external `get_percentiles` helper. -/
theorem describeMPCdstn_one_line_per_percentile (gp : List ℚ → List ℚ → List ℚ)
    (SomeTypes : List AgentType) (percentiles : List ℚ)
    (hne : SomeTypes ≠ [])
    (hlen : (gp (pooled_MPC SomeTypes) percentiles).length = percentiles.length) :
    describeMPCdstn gp SomeTypes percentiles =
      some (List.zipWith (fun p q => (100 * p, 1 - (1 - q) ^ 4)) percentiles
        (gp (pooled_MPC SomeTypes) percentiles)) ∧
    (List.zipWith (fun p q => (100 * p, 1 - (1 - q) ^ 4)) percentiles
        (gp (pooled_MPC SomeTypes) percentiles)).length = percentiles.length := by
  constructor
  · unfold describeMPCdstn
    rw [if_pos (by simp [hlen])]
    refine congrArg some ?_
    have hmain := range_map_getD_eq_zipWith
      (fun p b => ((100 : ℚ) * p, b)) (0 : ℚ) (0 : ℚ) percentiles
      ((gp (pooled_MPC SomeTypes) percentiles).map (fun q => 1 - (1 - q) ^ 4))
      (by simp [hlen])
    rw [hmain, List.zipWith_map_right]
  · rw [List.length_zipWith, hlen, min_self]

/-- Witness for C2 with one agent, two MPC draws and one percentile, where the
percentile helper returns its percentile list mapped to the first draw. -/
theorem describeMPCdstn_one_line_per_percentile_witness :
    ([(⟨[], [0]⟩ : AgentType)] ≠ []) ∧
    (((fun xs _ps => xs) : List ℚ → List ℚ → List ℚ)
        (pooled_MPC [⟨[], [0]⟩]) [0.5]).length = ([(0.5 : ℚ)]).length ∧
    (describeMPCdstn (fun xs _ps => xs) [⟨[], [0]⟩] [0.5] =
      some (List.zipWith (fun p q => (100 * p, 1 - (1 - q) ^ 4)) [(0.5 : ℚ)]
        ((fun xs _ps => xs) (pooled_MPC [⟨[], [0]⟩]) [0.5])) ∧
    (List.zipWith (fun p q => (100 * p, 1 - (1 - q) ^ 4)) [(0.5 : ℚ)]
        ((fun xs _ps => xs) (pooled_MPC [⟨[], [0]⟩]) [0.5])).length =
      ([(0.5 : ℚ)]).length) :=
  ⟨by simp, rfl,
    describeMPCdstn_one_line_per_percentile (fun xs _ps => xs) [⟨[], [0]⟩] [0.5]
      (by simp) rfl⟩

/-- C10: at every grid point of `a_tm1 = np.linspace(-1, 4)`, the saving-rate
denominator `cap_income_t + lab_income_t = a*(Rfree-1)/PermGroFac + 1` is strictly
positive, so the saving-rate expression never divides by zero. -/
theorem sav_rate_denominator_pos :
    ∀ a ∈ a_tm1, 0 < cap_income_t a + lab_income_t := by
  intro a ha
  unfold a_tm1 np_linspace at ha
  obtain ⟨i, _hi, rfl⟩ := List.exists_of_mem_map ha
  have hi0 : (0 : ℚ) ≤ (i : ℚ) := Nat.cast_nonneg i
  unfold cap_income_t lab_income_t Rfree_sr PermGroFac_sr
  norm_num
  nlinarith [hi0]

/-- Witness for C10 at the leftmost grid point `a = -1`. -/
theorem sav_rate_denominator_pos_witness :
    (-1 : ℚ) ∈ a_tm1 ∧ 0 < cap_income_t (-1) + lab_income_t := by
  have hmem : (-1 : ℚ) ∈ a_tm1 := by
    unfold a_tm1 np_linspace
    have h0 : (0 : ℕ) ∈ List.range 50 := List.mem_range.mpr (by norm_num)
    have h1 := List.mem_map_of_mem
      (fun i : ℕ => (-1 : ℚ) + (4 - (-1)) * i / (((50 : ℕ) : ℚ) - 1)) h0
    simpa using h1
  exact ⟨hmem, sav_rate_denominator_pos (-1) hmem⟩

/-- C8: in DiamondOLG's plot1, for `0 < Epsilon < 1` and positive `DiscFac`,
`PopGrowth`, `YearsPerGeneration`, the plotted steady state
`kBar = Q^(1/(1-Epsilon))` is a fixed point of the plotted capital-accumulation
curve `k ↦ Q*k^Epsilon`, so the red marker lies on the intersection of the curve
with the 45-degree line. -/
theorem plot1_kBar_is_steady_state
    (Epsilon DiscFac PopGrowth YearsPerGeneration : ℝ)
    (hε0 : 0 < Epsilon) (hε1 : Epsilon < 1)
    (hD : 0 < DiscFac) (hP : 0 < PopGrowth) (hY : 0 < YearsPerGeneration) :
    plot1_ktp1 Epsilon
      (plot1_Q Epsilon (plot1_Beta DiscFac YearsPerGeneration)
        (plot1_xi PopGrowth YearsPerGeneration))
      (plot1_kBar Epsilon
        (plot1_Q Epsilon (plot1_Beta DiscFac YearsPerGeneration)
          (plot1_xi PopGrowth YearsPerGeneration))) =
    plot1_kBar Epsilon
      (plot1_Q Epsilon (plot1_Beta DiscFac YearsPerGeneration)
        (plot1_xi PopGrowth YearsPerGeneration)) := by
  have hβ : 0 < plot1_Beta DiscFac YearsPerGeneration := Real.rpow_pos_of_pos hD _
  have hξ : 0 < plot1_xi PopGrowth YearsPerGeneration := Real.rpow_pos_of_pos hP _
  have hQ : 0 < plot1_Q Epsilon (plot1_Beta DiscFac YearsPerGeneration)
      (plot1_xi PopGrowth YearsPerGeneration) := by
    unfold plot1_Q
    exact div_pos (mul_pos (by linarith) (div_pos hβ (by linarith))) hξ
  unfold plot1_ktp1 plot1_kBar
  exact rpow_one_div_one_sub_fix hQ hε1

/-- Witness for C8 at `Epsilon = 1/3`, `DiscFac = 9/10`, `PopGrowth = 101/100`,
`YearsPerGeneration = 30`. -/
theorem plot1_kBar_is_steady_state_witness :
    (0 : ℝ) < 1/3 ∧ (1/3 : ℝ) < 1 ∧ (0 : ℝ) < 9/10 ∧ (0 : ℝ) < 101/100 ∧
      (0 : ℝ) < 30 ∧
    plot1_ktp1 (1/3) (plot1_Q (1/3) (plot1_Beta (9/10) 30) (plot1_xi (101/100) 30))
      (plot1_kBar (1/3)
        (plot1_Q (1/3) (plot1_Beta (9/10) 30) (plot1_xi (101/100) 30))) =
    plot1_kBar (1/3) (plot1_Q (1/3) (plot1_Beta (9/10) 30) (plot1_xi (101/100) 30)) :=
  ⟨by norm_num, by norm_num, by norm_num, by norm_num, by norm_num,
    plot1_kBar_is_steady_state (1/3) (9/10) (101/100) 30 (by norm_num) (by norm_num)
      (by norm_num) (by norm_num) (by norm_num)⟩

/-- C1 (code bug): `calcLorenzDistance`'s body pools asset levels over the global
`MyTypes` instead of its `SomeTypes` parameter, so at a concrete input where the two
pools differ (`MyTypes` holding assets `[0]`, `SomeTypes` holding `[1]`, with a
Lorenz-shares helper that distinguishes the pools) the returned value differs from
the Euclidean distance computed from `SomeTypes` that the claim (and the function's
own docstring) describe. -/
theorem calcLorenzDistance_ignores_SomeTypes :
    calcLorenzDistance demo_gls demo_MyTypes demo_SomeTypes ≠
      calcLorenzDistance_asDocumented demo_gls demo_SomeTypes := by
  have hM : pooled_aLvl demo_MyTypes = [0] := rfl
  have hS : pooled_aLvl demo_SomeTypes = [1] := rfl
  unfold calcLorenzDistance calcLorenzDistance_asDocumented
  rw [hM, hS]
  have hq : sumSqDiff lorenz_SCF (demo_gls [0] [0.2, 0.4, 0.6, 0.8]) <
      sumSqDiff lorenz_SCF (demo_gls [1] [0.2, 0.4, 0.6, 0.8]) := by
    unfold sumSqDiff lorenz_SCF demo_gls
    norm_num [List.zipWith_cons_cons, List.sum_cons, List.sum_nil]
  have h0 : (0 : ℚ) ≤ sumSqDiff lorenz_SCF (demo_gls [0] [0.2, 0.4, 0.6, 0.8]) := by
    unfold sumSqDiff lorenz_SCF demo_gls
    norm_num [List.zipWith_cons_cons, List.sum_cons, List.sum_nil]
  exact ne_of_lt (Real.sqrt_lt_sqrt (by exact_mod_cast h0) (by exact_mod_cast hq))

theorem payg_iteration_reaches_ball
    (Q t K ε δ : ℝ) (hQ : 0 < Q) (hε0 : 0 < ε) (hε1 : ε < 1) (ht : 0 ≤ t)
    (hδ : 0 < δ) (hKpos : 0 < K)
    (hKfix : Q * K ^ ε - t = K)
    (hKmax : ∀ k, K ≤ k → Q * k ^ ε - t = k → k ≤ K) :
    ∃ N, |K - (fun k => Q * k ^ ε - t)^[N] (Q ^ (1 / (1 - ε)))| ≤ δ := by
  set f : ℝ → ℝ := fun k => Q * k ^ ε - t with hfdef
  set k0 : ℝ := Q ^ (1 / (1 - ε)) with hk0def
  have h1ε : (0 : ℝ) < 1 - ε := by linarith
  have hk0pos : 0 < k0 := Real.rpow_pos_of_pos hQ _
  have hQk0 : Q * k0 ^ ε = k0 := rpow_one_div_one_sub_fix hQ hε1
  have hKfix2 : Q * K ^ ε = K + t := by linarith
  have hKle : K ≤ k0 := by
    have hKε : 0 < K ^ ε := Real.rpow_pos_of_pos hKpos ε
    have h2 : K ^ ((1 : ℝ) - ε) ≤ Q := by
      have hKsplit : K = K ^ ((1 : ℝ) - ε) * K ^ ε := by
        rw [← Real.rpow_add hKpos]
        norm_num
      have h3 : K ^ ((1 : ℝ) - ε) * K ^ ε ≤ Q * K ^ ε := by
        rw [← hKsplit, hKfix2]
        linarith
      exact le_of_mul_le_mul_right h3 hKε
    calc K = (K ^ ((1 : ℝ) - ε)) ^ (1 / (1 - ε)) := by
            rw [← Real.rpow_mul hKpos.le,
              show ((1 : ℝ) - ε) * (1 / (1 - ε)) = 1 by field_simp, Real.rpow_one]
      _ ≤ Q ^ (1 / (1 - ε)) :=
            Real.rpow_le_rpow (Real.rpow_nonneg hKpos.le _) h2 (by positivity)
  have hfmono : ∀ a b : ℝ, 0 ≤ a → a ≤ b → f a ≤ f b := by
    intro a b ha hab
    have h := Real.rpow_le_rpow ha hab hε0.le
    have h2 := mul_le_mul_of_nonneg_left h hQ.le
    simp only [hfdef]
    linarith
  have hfK : f K = K := hKfix
  have hdown : ∀ k, K ≤ k → k ≤ k0 → f k ≤ k := by
    intro k hk1 hk2
    by_contra hcon
    push_neg at hcon
    have hkpos : 0 < k := lt_of_lt_of_le hKpos hk1
    have hcont : ContinuousOn (fun x : ℝ => x - (Q * x ^ ε - t)) (Set.Icc k k0) := by
      refine continuousOn_id.sub
        (ContinuousOn.sub (continuousOn_const.mul ?_) continuousOn_const)
      refine ContinuousOn.rpow_const continuousOn_id ?_
      intro x hx
      exact Or.inl (ne_of_gt (lt_of_lt_of_le hkpos hx.1))
    have hgk : k - (Q * k ^ ε - t) < 0 := by
      simp only [hfdef] at hcon
      linarith
    have hgk0 : 0 ≤ k0 - (Q * k0 ^ ε - t) := by
      rw [hQk0]
      linarith
    have hIVT := intermediate_value_Icc hk2 hcont
    have h0mem : (0 : ℝ) ∈
        Set.Icc (k - (Q * k ^ ε - t)) (k0 - (Q * k0 ^ ε - t)) := ⟨le_of_lt hgk, hgk0⟩
    obtain ⟨c, hcmem, hgc⟩ := hIVT h0mem
    have hcfix : Q * c ^ ε - t = c := by
      have : c - (Q * c ^ ε - t) = 0 := hgc
      linarith
    have hcK : c ≤ K := hKmax c (le_trans hk1 hcmem.1) hcfix
    have hkK : K < k := by
      rcases eq_or_lt_of_le hk1 with heq | h
      · exfalso
        rw [← heq] at hcon
        rw [hfK] at hcon
        exact lt_irrefl K hcon
      · exact h
    have := hcmem.1
    linarith
  set S : ℕ → ℝ := fun n => f^[n] k0 with hSdef
  have hSsucc : ∀ n, S (n + 1) = f (S n) := fun n => Function.iterate_succ_apply' f n k0
  have inv : ∀ n, K ≤ S n ∧ S n ≤ k0 := by
    intro n
    induction n with
    | zero => exact ⟨hKle, le_refl k0⟩
    | succ m ih =>
      constructor
      · rw [hSsucc]
        calc K = f K := hfK.symm
          _ ≤ f (S m) := hfmono K (S m) hKpos.le ih.1
      · rw [hSsucc]
        exact le_trans (hdown (S m) ih.1 ih.2) ih.2
  have hstepdown : ∀ n, S (n + 1) ≤ S n := by
    intro n
    rw [hSsucc]
    exact hdown (S n) (inv n).1 (inv n).2
  have hanti : Antitone S := antitone_nat_of_succ_le hstepdown
  have hbdd : BddBelow (Set.range S) := by
    refine ⟨K, ?_⟩
    rintro x ⟨n, rfl⟩
    exact (inv n).1
  have hlim : Filter.Tendsto S Filter.atTop (nhds (⨅ n, S n)) :=
    tendsto_atTop_ciInf hanti hbdd
  set L : ℝ := ⨅ n, S n with hLdef
  have hKL : K ≤ L := le_ciInf fun n => (inv n).1
  have hLpos : 0 < L := lt_of_lt_of_le hKpos hKL
  have hcontL : ContinuousAt f L := by
    simp only [hfdef]
    exact ((Real.continuousAt_rpow_const L ε (Or.inl (ne_of_gt hLpos))).const_mul Q).sub
      continuousAt_const
  have hlim2 : Filter.Tendsto (fun n => f (S n)) Filter.atTop (nhds (f L)) :=
    hcontL.tendsto.comp hlim
  have hlim3 : Filter.Tendsto (fun n => S (n + 1)) Filter.atTop (nhds L) :=
    hlim.comp (Filter.tendsto_add_atTop_nat 1)
  have hfixL : f L = L := by
    have heq : (fun n => f (S n)) = fun n => S (n + 1) := funext fun n => (hSsucc n).symm
    rw [heq] at hlim2
    exact tendsto_nhds_unique hlim2 hlim3
  have hLK : L ≤ K := by
    refine hKmax L hKL ?_
    simpa [hfdef] using hfixL
  have hLeq : L = K := le_antisymm hLK hKL
  rw [hLeq] at hlim
  obtain ⟨N, hN⟩ := (Metric.tendsto_atTop.mp hlim) δ hδ
  refine ⟨N, ?_⟩
  have h1 := hN N (le_refl N)
  rw [Real.dist_eq] at h1
  rw [abs_sub_comm K (S N)]
  exact le_of_lt h1

/-- C9 counterexample: the frozen claim quantifies over every widget-reachable
parameter combination, but at the reachable combination `Epsilon = 0.4` (slider
maximum), `DiscFac = 0.95` (slider minimum), `z = 0.02` (slider maximum),
`Rfree = 1.0` (slider minimum), the loop's iteration map
`k ↦ (wage(k)*(Beta/(1+Beta)) - transfers)/xi = Q*k^0.4 - 0.02` has NO positive
fixed point at all (its transfers `0.02` exceed the maximum of `Q*k^0.4 - k`, about
`0.0077`, by weighted AM-GM at `c = 0.0055`).  Hence no steady state `kBar_new`
with the fixed-point property exists there: scipy's root-finder cannot converge, and
the loop cannot terminate through `|kBar_new - kt_PAYG|` falling below `0.0015` as
the claim asserts. -/
theorem plot3_no_steady_state_at_reachable_combo :
    ¬ ∃ K : ℝ, 0 < K ∧
      plot3_k1 (2/5) (plot3_Beta (19/20) 30) (plot3_xi 30)
        (plot3_transfers (1/50) 1 (plot3_Beta (19/20) 30)) K = K := by
  rintro ⟨K, hK, hfix⟩
  set β := plot3_Beta (19/20 : ℝ) 30 with hβdef
  have hβ : 0 < β := Real.rpow_pos_of_pos (by norm_num) _
  have hβeq : β = ((19 : ℝ)/20) ^ (30 : ℕ) := by
    rw [hβdef]
    unfold plot3_Beta
    rw [show (30 : ℝ) = ((30 : ℕ) : ℝ) by norm_num, Real.rpow_natCast]
  have hξ : plot3_xi (30 : ℝ) = 1 := by simp [plot3_xi]
  have ht : plot3_transfers (1/50) 1 β = 1/50 := by
    unfold plot3_transfers
    rw [one_mul, one_mul, mul_div_assoc, div_self (by linarith : (1 : ℝ) + β ≠ 0), mul_one]
  unfold plot3_k1 plot3_wage at hfix
  rw [hξ, ht, div_one] at hfix
  set Q : ℝ := (3/5) * (β / (1 + β)) with hQdef
  have hQpos : 0 < Q := by
    rw [hQdef]
    exact mul_pos (by norm_num) (div_pos hβ (by linarith))
  have hfix2 : Q * K ^ ((2:ℝ)/5) = K + 1/50 := by
    rw [hQdef]
    rw [show (3/5 : ℝ) * (β / (1 + β)) * K ^ ((2:ℝ)/5)
        = (1 - 2/5) * K ^ ((2:ℝ)/5) * (β / (1 + β)) from by ring]
    linarith [hfix]
  set c : ℝ := 11/2000 with hcdef
  have hcpos : (0:ℝ) < c := by rw [hcdef]; norm_num
  have hc35pos : 0 < c ^ ((3:ℝ)/5) := Real.rpow_pos_of_pos hcpos _
  have hAM : K ^ ((2:ℝ)/5) * c ^ ((3:ℝ)/5) ≤ (2/5) * K + (3/5) * c :=
    Real.geom_mean_le_arith_mean2_weighted (by norm_num) (by norm_num) hK.le hcpos.le
      (by norm_num)
  have hpow5 : (c ^ ((3:ℝ)/5)) ^ (5:ℕ) = c ^ (3:ℕ) := by
    rw [← Real.rpow_natCast (c ^ ((3:ℝ)/5)) 5, ← Real.rpow_mul hcpos.le]
    rw [show ((3:ℝ)/5) * ((5:ℕ):ℝ) = ((3:ℕ):ℝ) by norm_num, Real.rpow_natCast]
  have hA : (2/5) * Q ≤ c ^ ((3:ℝ)/5) := by
    refine le_of_pow_le_pow_left₀ (by norm_num) hc35pos.le (n := 5) ?_
    rw [hpow5, hQdef, hβeq, hcdef]
    norm_num
  have hB : 30 * Q * c < c ^ ((3:ℝ)/5) := by
    refine lt_of_pow_lt_pow_left₀ 5 hc35pos.le ?_
    rw [hpow5, hQdef, hβeq, hcdef]
    norm_num
  have step1 : Q * (K ^ ((2:ℝ)/5) * c ^ ((3:ℝ)/5)) ≤ Q * ((2/5) * K + (3/5) * c) :=
    mul_le_mul_of_nonneg_left hAM hQpos.le
  have step3 : ((2/5) * Q) * K ≤ c ^ ((3:ℝ)/5) * K := mul_le_mul_of_nonneg_right hA hK.le
  have step4 : (3/5) * Q * c < c ^ ((3:ℝ)/5) * (1/50) := by
    rw [show (3/5 : ℝ) * Q * c = (30 * Q * c) * (1/50) from by ring]
    exact mul_lt_mul_of_pos_right hB (by norm_num)
  have hlt : Q * K ^ ((2:ℝ)/5) * c ^ ((3:ℝ)/5) < (K + 1/50) * c ^ ((3:ℝ)/5) := by
    calc Q * K ^ ((2:ℝ)/5) * c ^ ((3:ℝ)/5) = Q * (K ^ ((2:ℝ)/5) * c ^ ((3:ℝ)/5)) := by
          ring
      _ ≤ Q * ((2/5) * K + (3/5) * c) := step1
      _ = ((2/5) * Q) * K + (3/5) * Q * c := by ring
      _ < c ^ ((3:ℝ)/5) * K + c ^ ((3:ℝ)/5) * (1/50) := by linarith
      _ = (K + 1/50) * c ^ ((3:ℝ)/5) := by ring
  have hfinal : Q * K ^ ((2:ℝ)/5) < K + 1/50 := (mul_lt_mul_right hc35pos).mp hlt
  linarith [hfix2]

/-- C9 (amended): for every widget-reachable parameter combination of DiamondOLG's
plot3 (`Epsilon ∈ [0.2, 0.4]`, `DiscFac ∈ [0.95, 0.99]`, `z ∈ [0, 0.02]`,
`Rfree ∈ [1.0, 1.1]`, `YearsPerGeneration = 30`) FOR WHICH the loop's iteration map
has a positive fixed point — with `kBar_new` the largest such fixed point, as scipy's
root-finder returns when it converges — the while-loop that draws convergence arrows
terminates: starting from `kt_PAYG = kBar_old`, finitely many iterations of
`k ↦ (wage(k)*(Beta/(1+Beta)) - transfers)/xi` bring `|kBar_new - kt_PAYG|` below
the threshold `0.0015`.  (The unamended claim fails: at some reachable combinations
no positive fixed point exists at all, as the preceding theorem shows.) -/
theorem plot3_convergence_loop_terminates
    (Epsilon DiscFac z Rfree K : ℝ)
    (hε1 : 1/5 ≤ Epsilon) (hε2 : Epsilon ≤ 2/5)
    (hD1 : 19/20 ≤ DiscFac) (hD2 : DiscFac ≤ 99/100)
    (hz0 : 0 ≤ z) (hz1 : z ≤ 1/50)
    (hR1 : 1 ≤ Rfree) (hR2 : Rfree ≤ 11/10)
    (hKpos : 0 < K)
    (hKfix : plot3_k1 Epsilon (plot3_Beta DiscFac 30) (plot3_xi 30)
        (plot3_transfers z Rfree (plot3_Beta DiscFac 30)) K = K)
    (hKmax : ∀ k, K ≤ k →
        plot3_k1 Epsilon (plot3_Beta DiscFac 30) (plot3_xi 30)
          (plot3_transfers z Rfree (plot3_Beta DiscFac 30)) k = k → k ≤ K) :
    ∃ N, |K - plot3_path Epsilon (plot3_Beta DiscFac 30) (plot3_xi 30)
        (plot3_transfers z Rfree (plot3_Beta DiscFac 30)) N| ≤ 0.0015 := by
  set β := plot3_Beta DiscFac 30 with hβdef
  have hβ : 0 < β := Real.rpow_pos_of_pos (by linarith) _
  have hξ : plot3_xi (30 : ℝ) = 1 := by simp [plot3_xi]
  set t := plot3_transfers z Rfree β with htdef
  have hR0 : (0 : ℝ) < Rfree := by linarith
  have ht : 0 ≤ t := by
    rw [htdef]
    unfold plot3_transfers
    apply div_nonneg
    · apply mul_nonneg hz0
      nlinarith
    · nlinarith
  set Q := (1 - Epsilon) * (β / (1 + β)) with hQdef
  have hQ : 0 < Q := by
    rw [hQdef]
    exact mul_pos (by linarith) (div_pos hβ (by linarith))
  have hstep : (fun k => plot3_k1 Epsilon β (plot3_xi 30) t k) =
      fun k => Q * k ^ Epsilon - t := by
    funext k
    unfold plot3_k1 plot3_wage
    rw [hξ, hQdef]
    ring
  have hk0 : plot3_kBar_old Epsilon β (plot3_xi 30) = Q ^ (1 / (1 - Epsilon)) := by
    unfold plot3_kBar_old plot3_Q
    rw [hξ, hQdef]
    norm_num
  have hfixQ : Q * K ^ Epsilon - t = K := by
    have h := congrFun hstep K
    simp only at h
    rw [← h]
    exact hKfix
  have hmaxQ : ∀ k, K ≤ k → Q * k ^ Epsilon - t = k → k ≤ K := by
    intro k hk hkfix
    refine hKmax k hk ?_
    have h := congrFun hstep k
    simp only at h
    rw [h]
    exact hkfix
  obtain ⟨N, hN⟩ := payg_iteration_reaches_ball Q t K Epsilon 0.0015 hQ (by linarith)
    (by linarith) ht (by norm_num) hKpos hfixQ hmaxQ
  refine ⟨N, ?_⟩
  have hpath : plot3_path Epsilon β (plot3_xi 30) t N =
      (fun k => Q * k ^ Epsilon - t)^[N] (Q ^ (1 / (1 - Epsilon))) := by
    unfold plot3_path
    rw [hstep, hk0]
  rw [hpath]
  exact hN

theorem plot3_zero_transfers_kBar_fixed (ε DiscFac : ℝ)
    (hε0 : 0 < ε) (hε1 : ε < 1) (hD : 0 < DiscFac) :
    plot3_k1 ε (plot3_Beta DiscFac 30) (plot3_xi 30) 0
      (plot3_kBar_old ε (plot3_Beta DiscFac 30) (plot3_xi 30)) =
    plot3_kBar_old ε (plot3_Beta DiscFac 30) (plot3_xi 30) := by
  set β := plot3_Beta DiscFac 30 with hβdef
  have hβ : 0 < β := Real.rpow_pos_of_pos hD _
  have hξ : plot3_xi (30 : ℝ) = 1 := by simp [plot3_xi]
  have hQ : 0 < (1 - ε) * (β / (1 + β)) :=
    mul_pos (by linarith) (div_pos hβ (by linarith))
  unfold plot3_k1 plot3_wage plot3_kBar_old plot3_Q
  rw [hξ, div_one, div_one, sub_zero]
  calc (1 - ε) * (((1 - ε) * (β / (1 + β))) ^ (1 / (1 - ε))) ^ ε * (β / (1 + β))
      = ((1 - ε) * (β / (1 + β))) * (((1 - ε) * (β / (1 + β))) ^ (1 / (1 - ε))) ^ ε := by
        ring
    _ = ((1 - ε) * (β / (1 + β))) ^ (1 / (1 - ε)) := rpow_one_div_one_sub_fix hQ hε1

theorem plot3_zero_transfers_fixed_unique (ε DiscFac k : ℝ)
    (hε0 : 0 < ε) (hε1 : ε < 1) (hD : 0 < DiscFac) (hk : 0 < k)
    (hfix : plot3_k1 ε (plot3_Beta DiscFac 30) (plot3_xi 30) 0 k = k) :
    k = plot3_kBar_old ε (plot3_Beta DiscFac 30) (plot3_xi 30) := by
  set β := plot3_Beta DiscFac 30 with hβdef
  have hξ : plot3_xi (30 : ℝ) = 1 := by simp [plot3_xi]
  unfold plot3_k1 plot3_wage at hfix
  rw [hξ, div_one, sub_zero] at hfix
  have hfix2 : ((1 - ε) * (β / (1 + β))) * k ^ ε = k := by
    rw [show ((1 - ε) * (β / (1 + β))) * k ^ ε = (1 - ε) * k ^ ε * (β / (1 + β)) from by
      ring]
    exact hfix
  have := rpow_one_div_one_sub_fix_unique hε1 hk hfix2
  unfold plot3_kBar_old plot3_Q
  rw [hξ, div_one]
  exact this

/-- Witness for C9 at `Epsilon = 1/3`, `DiscFac = 19/20`, `z = 0`, `Rfree = 1`, with
the steady state `demo_plot3_K = kBar_old` (at `z = 0` the transfers vanish). -/
theorem plot3_convergence_loop_terminates_witness :
    (0 : ℝ) < demo_plot3_K ∧
    plot3_k1 (1/3) (plot3_Beta (19/20) 30) (plot3_xi 30)
      (plot3_transfers 0 1 (plot3_Beta (19/20) 30)) demo_plot3_K = demo_plot3_K ∧
    (∃ N, |demo_plot3_K - plot3_path (1/3) (plot3_Beta (19/20) 30) (plot3_xi 30)
        (plot3_transfers 0 1 (plot3_Beta (19/20) 30)) N| ≤ 0.0015) := by
  have hβ : 0 < plot3_Beta (19/20 : ℝ) 30 := Real.rpow_pos_of_pos (by norm_num) _
  have hξ : plot3_xi (30 : ℝ) = 1 := by simp [plot3_xi]
  have ht0 : plot3_transfers 0 1 (plot3_Beta (19/20 : ℝ) 30) = 0 := by
    unfold plot3_transfers
    simp
  have hKpos : 0 < demo_plot3_K := by
    unfold demo_plot3_K plot3_kBar_old
    refine Real.rpow_pos_of_pos ?_ _
    unfold plot3_Q
    rw [hξ, div_one]
    exact mul_pos (by norm_num) (div_pos hβ (by linarith))
  have hKfix : plot3_k1 (1/3) (plot3_Beta (19/20) 30) (plot3_xi 30)
      (plot3_transfers 0 1 (plot3_Beta (19/20) 30)) demo_plot3_K = demo_plot3_K := by
    rw [ht0]
    exact plot3_zero_transfers_kBar_fixed (1/3) (19/20) (by norm_num) (by norm_num)
      (by norm_num)
  have hKmax : ∀ k, demo_plot3_K ≤ k →
      plot3_k1 (1/3) (plot3_Beta (19/20) 30) (plot3_xi 30)
        (plot3_transfers 0 1 (plot3_Beta (19/20) 30)) k = k → k ≤ demo_plot3_K := by
    intro k hk hkfix
    rw [ht0] at hkfix
    have hkpos : 0 < k := lt_of_lt_of_le hKpos hk
    have := plot3_zero_transfers_fixed_unique (1/3) (19/20) k (by norm_num) (by norm_num)
      (by norm_num) hkpos hkfix
    exact le_of_eq this
  exact ⟨hKpos, hKfix,
    plot3_convergence_loop_terminates (1/3) (19/20) 0 1 demo_plot3_K (by norm_num)
      (by norm_num) (by norm_num) (by norm_num) (by norm_num) (by norm_num) (by norm_num)
      (by norm_num) hKpos hKfix hKmax⟩
